import Mathlib

/-!
Shallow embedding of the `datakit` crate (dynamic tabular values, contracts,
validation, coercion, parsing) and proofs about its specification claims.

Translation conventions:
* Rust `Vec<T>` is `List T`; `usize` is `Nat` (wrapping subtraction is made
  explicit where the source can underflow); `i64` is `Int`.
* Rust `f64` payloads are modelled as opaque bit patterns (`F64 := Nat`).
  IEEE-754 corner cases of `PartialEq`/`PartialOrd` on floats (NaN, signed
  zero) are outside the model; no claim below depends on the behaviour of a
  float comparison, only on which code path consumes it.
* A fallible Rust function returning `Result<A, E>` becomes `Except E A`
  when no execution of it can panic, and `RResult A E` (which adds a
  `crash` outcome for Rust panics: out-of-bounds indexing, integer
  overflow in debug builds) otherwise.
* Mutating methods on `&mut self` become functions `Table → ... → RResult
  Table E`: an `err` outcome means the source returned early before any
  mutation, so the caller's table is unchanged.
-/

namespace Datakit

/-- Outcome of running a Rust function that may return `Ok`, return `Err`,
or panic (`crash`). -/
inductive RResult (α : Type) (ε : Type) where
  | ok (a : α)
  | err (e : ε)
  | crash
  deriving Repr

/-- Rust `f64` payloads, modelled as opaque bit patterns. Arithmetic and
IEEE comparison semantics are not modelled; see the file header. -/
abbrev F64 : Type := Nat

/-- A concrete `F64` bit pattern used by closed counterexamples (its
numeric reading is irrelevant to every statement that mentions it). -/
def someF64 : F64 := (2 : Nat)

/-- Model of Rust `f64::partial_cmp`, as a total order on the opaque bit
patterns. The IEEE corner cases are outside the model (file header). -/
def f64PartialCmp (a b : F64) : Option Ordering :=
  some (compare (a : Nat) b)

/-- Model of Rust `f64 == f64` on the opaque bit patterns. -/
def f64Beq (a b : F64) : Bool :=
  (a : Nat) == b

-- Primitives (src/value/primitives/basic.rs)

/-- Source `Empty` from `primitives/basic.rs`: rich-null tag. Declaration order
(`Unexpected` before `Expected`) matters for the derived ordering. -/
inductive Empty where
  | unexpected
  | expected
  deriving DecidableEq, Repr

/-- Source `Numeric` from `primitives/basic.rs`. -/
inductive Numeric where
  | integer (i : Int)
  | real (r : F64)
  | complex (re im : F64)
  deriving Repr

/-- Discriminant index of a `Numeric` variant, in declaration order, used
by the derived `PartialOrd`. -/
def Numeric.ctorIdx : Numeric → Nat
  | .integer _ => 0
  | .real _ => 1
  | .complex _ _ => 2

/-- Derived `PartialEq` on `Numeric`. -/
def numericBeq : Numeric → Numeric → Bool
  | .integer a, .integer b => a == b
  | .real a, .real b => f64Beq a b
  | .complex a b, .complex c d => f64Beq a c && f64Beq b d
  | _, _ => false

/-- Chain two partial comparisons lexicographically, as the derived
`PartialOrd` does for consecutive fields. -/
def pcmpThen (first second : Option Ordering) : Option Ordering :=
  match first with
  | some .eq => second
  | o => o

/-- Derived `PartialOrd::partial_cmp` on `Numeric`: discriminant order
first, then payloads. -/
def numericPCmp (a b : Numeric) : Option Ordering :=
  match a, b with
  | .integer x, .integer y => some (compare x y)
  | .real x, .real y => f64PartialCmp x y
  | .complex x1 x2, .complex y1 y2 => pcmpThen (f64PartialCmp x1 y1) (f64PartialCmp x2 y2)
  | _, _ => some (compare a.ctorIdx b.ctorIdx)

-- Date and time (src/value/primitives/datetime.rs)

/-- Source `TimeZone` from `primitives/datetime.rs`. Offsets hold `i16` hours and
minutes. -/
inductive TimeZone where
  | utc
  | offset (hours minutes : Int)
  deriving DecidableEq, Repr

/-- Source `Date` from `primitives/datetime.rs`; declaration order is `YearDay`,
`YearMonthDay`, `YearWeekDay`. Field widths (`u8`, `u16`) are modelled as
`Nat`; the year is `i32`, modelled as `Int`. -/
inductive Date where
  | yearDay (year : Int) (dayInYear : Nat)
  | yearMonthDay (year : Int) (month day : Nat)
  | yearWeekDay (year : Int) (weekInYear dayInWeek : Nat)
  deriving DecidableEq, Repr

/-- Source `Time` from `primitives/datetime.rs`. -/
structure Time where
  hour : Nat
  minute : Nat
  second : Nat
  milli : Nat
  micro : Nat
  nano : Nat
  timezone : TimeZone
  deriving DecidableEq, Repr

/-- Source `DateTime` from `primitives/datetime.rs` (the structured one, not
chrono's). -/
inductive DateTime where
  | date (d : Date)
  | time (t : Time)
  | full (date : Date) (time : Time)
  deriving DecidableEq, Repr

/-- Total order implementing the derived `PartialOrd` on `TimeZone`
(`Utc` before `Offset`, then fields lexicographically). -/
def timeZoneCmp : TimeZone → TimeZone → Ordering
  | .utc, .utc => .eq
  | .utc, .offset _ _ => .lt
  | .offset _ _, .utc => .gt
  | .offset h1 m1, .offset h2 m2 =>
    match compare h1 h2 with
    | .eq => compare m1 m2
    | o => o

/-- Discriminant index of a `Date` variant. -/
def Date.ctorIdx : Date → Nat
  | .yearDay _ _ => 0
  | .yearMonthDay _ _ _ => 1
  | .yearWeekDay _ _ _ => 2

/-- Total order implementing the derived `PartialOrd` on `Date`. -/
def dateCmp (a b : Date) : Ordering :=
  match a, b with
  | .yearDay y1 d1, .yearDay y2 d2 =>
    match compare y1 y2 with
    | .eq => compare d1 d2
    | o => o
  | .yearMonthDay y1 m1 d1, .yearMonthDay y2 m2 d2 =>
    match compare y1 y2 with
    | .eq => match compare m1 m2 with
      | .eq => compare d1 d2
      | o => o
    | o => o
  | .yearWeekDay y1 w1 d1, .yearWeekDay y2 w2 d2 =>
    match compare y1 y2 with
    | .eq => match compare w1 w2 with
      | .eq => compare d1 d2
      | o => o
    | o => o
  | _, _ => compare a.ctorIdx b.ctorIdx

/-- Total order implementing the derived `PartialOrd` on `Time` (fields in
declaration order). -/
def timeCmp (a b : Time) : Ordering :=
  match compare a.hour b.hour with
  | .eq => match compare a.minute b.minute with
    | .eq => match compare a.second b.second with
      | .eq => match compare a.milli b.milli with
        | .eq => match compare a.micro b.micro with
          | .eq => match compare a.nano b.nano with
            | .eq => timeZoneCmp a.timezone b.timezone
            | o => o
          | o => o
        | o => o
      | o => o
    | o => o
  | o => o

/-- Discriminant index of a `DateTime` variant. -/
def DateTime.ctorIdx : DateTime → Nat
  | .date _ => 0
  | .time _ => 1
  | .full _ _ => 2

/-- Total order implementing the derived `PartialOrd` on `DateTime`. -/
def dateTimeCmp (a b : DateTime) : Ordering :=
  match a, b with
  | .date d1, .date d2 => dateCmp d1 d2
  | .time t1, .time t2 => timeCmp t1 t2
  | .full d1 t1, .full d2 t2 =>
    match dateCmp d1 d2 with
    | .eq => timeCmp t1 t2
    | o => o
  | _, _ => compare a.ctorIdx b.ctorIdx

/-- Derived ordering on `Empty`: `Unexpected` < `Expected`. -/
def emptyCmp : Empty → Empty → Ordering
  | .unexpected, .unexpected => .eq
  | .unexpected, .expected => .lt
  | .expected, .unexpected => .gt
  | .expected, .expected => .eq

-- The Value model (src/value/definitions.rs and primitives/composite.rs)

/-- Source `Collection<T>` from `primitives/composite.rs`. -/
inductive Collection (α : Type) where
  | array (xs : List α)
  | object (xs : List (String × α))
  deriving Repr

/-- Source `Value` from `value/definitions.rs`, in source declaration order:
`Number`, `Text`, `DateTime`, `Missing`, `Boolean`, `Composite`. -/
inductive Value where
  | number (n : Numeric)
  | text (s : String)
  | dateTime (dt : DateTime)
  | missing (e : Empty)
  | boolean (b : Bool)
  | composite (c : Collection Value)
  deriving Repr

/-- Source `ValueType` from `value/definitions.rs`: the variant tag alone. -/
inductive ValueType where
  | number
  | text
  | dateTime
  | missing
  | boolean
  | composite
  deriving DecidableEq, Repr

/-- Source `Value::get_value_type`: the total, pure projection onto the tag. -/
def Value.get_value_type : Value → ValueType
  | .number _ => .number
  | .text _ => .text
  | .dateTime _ => .dateTime
  | .missing _ => .missing
  | .boolean _ => .boolean
  | .composite _ => .composite

/-- Source `Value::is_of_type`. -/
def Value.is_of_type (v : Value) (t : ValueType) : Bool :=
  v.get_value_type == t

/-- Discriminant index of a `Value` variant, in declaration order. -/
def Value.ctorIdx : Value → Nat
  | .number _ => 0
  | .text _ => 1
  | .dateTime _ => 2
  | .missing _ => 3
  | .boolean _ => 4
  | .composite _ => 5

mutual

/-- Derived `PartialEq` on `Value` (structural; float payloads compared as
bit patterns, see file header). -/
def valueBeq : Value → Value → Bool
  | .number a, .number b => numericBeq a b
  | .text a, .text b => a == b
  | .dateTime a, .dateTime b => a == b
  | .missing a, .missing b => a == b
  | .boolean a, .boolean b => a == b
  | .composite a, .composite b => collectionBeq a b
  | _, _ => false

/-- Derived `PartialEq` on `Collection<Value>`. -/
def collectionBeq : Collection Value → Collection Value → Bool
  | .array xs, .array ys => listValueBeq xs ys
  | .object xs, .object ys => pairListBeq xs ys
  | _, _ => false

/-- Derived `PartialEq` on `Vec<Value>`. -/
def listValueBeq : List Value → List Value → Bool
  | [], [] => true
  | x :: xs, y :: ys => valueBeq x y && listValueBeq xs ys
  | _, _ => false

/-- Derived `PartialEq` on `Vec<(String, Value)>`. -/
def pairListBeq : List (String × Value) → List (String × Value) → Bool
  | [], [] => true
  | (k, x) :: xs, (l, y) :: ys => k == l && valueBeq x y && pairListBeq xs ys
  | _, _ => false

end

mutual

/-- Derived `PartialOrd::partial_cmp` on `Value`: discriminant order
first, then payload comparison within a variant. -/
def valuePCmp : Value → Value → Option Ordering
  | .number a, .number b => numericPCmp a b
  | .text a, .text b => some (compare a b)
  | .dateTime a, .dateTime b => some (dateTimeCmp a b)
  | .missing a, .missing b => some (emptyCmp a b)
  | .boolean a, .boolean b => some (compare a b)
  | .composite a, .composite b => collectionPCmp a b
  | a, b => some (compare a.ctorIdx b.ctorIdx)

/-- Derived `PartialOrd` on `Collection<Value>`: `Array` before `Object`,
lexicographic within. -/
def collectionPCmp : Collection Value → Collection Value → Option Ordering
  | .array xs, .array ys => listValuePCmp xs ys
  | .object xs, .object ys => pairListPCmp xs ys
  | .array _, .object _ => some .lt
  | .object _, .array _ => some .gt

/-- Lexicographic `partial_cmp` on `Vec<Value>` (slice `PartialOrd`). -/
def listValuePCmp : List Value → List Value → Option Ordering
  | [], [] => some .eq
  | [], _ :: _ => some .lt
  | _ :: _, [] => some .gt
  | x :: xs, y :: ys =>
    match valuePCmp x y with
    | some .eq => listValuePCmp xs ys
    | o => o

/-- Lexicographic `partial_cmp` on `Vec<(String, Value)>`. -/
def pairListPCmp : List (String × Value) → List (String × Value) → Option Ordering
  | [], [] => some .eq
  | [], _ :: _ => some .lt
  | _ :: _, [] => some .gt
  | (k, x) :: xs, (l, y) :: ys =>
    match compare k l with
    | .eq =>
      match valuePCmp x y with
      | some .eq => pairListPCmp xs ys
      | o => o
    | o => some o

end

/-- Rust `value <= max` on `&Value` (`PartialOrd::le`). -/
def valueLe (a b : Value) : Bool :=
  match valuePCmp a b with
  | some .lt => true
  | some .eq => true
  | _ => false

/-- Rust `value >= min` on `&Value` (`PartialOrd::ge`). -/
def valueGe (a b : Value) : Bool :=
  match valuePCmp a b with
  | some .gt => true
  | some .eq => true
  | _ => false

-- Construction helpers (src/value/definitions.rs, impl_from_t_to_value!)

/-- Source `impl From<String> for Value`: empty text (`value.len() == 0`, i.e. the
empty string) becomes `Missing(Unexpected)`, anything else `Text`. -/
def valueFromString (s : String) : Value :=
  if s = "" then Value.missing Empty.unexpected else Value.text s

/-- Source `impl From<&str> for Value`: always `Text` of the contents; the source
has no empty-string special case in this conversion. -/
def valueFromStr (s : String) : Value :=
  Value.text s

-- Constraint & contract engine (src/value/constraint.rs, src/errors.rs)

/-- Source `TypeConstraint` from `value/constraint.rs`. -/
inductive TypeConstraint where
  | isType (t : ValueType)
  deriving DecidableEq, Repr

/-- Source `ValueConstraint` from `value/constraint.rs`. -/
inductive ValueConstraint where
  | any
  | notC (inner : ValueConstraint)
  | oneOf (allowed : List Value)
  | maximum (bound : Value)
  | minimum (bound : Value)
  | maximumLength (n : Nat)
  | minimumLength (n : Nat)
  deriving Repr

/-- Source `ConstraintError` from `errors.rs`. -/
inductive ConstraintError where
  | typeError (expected received : ValueType)
  | valueError (constraint : ValueConstraint)
  | invalidConstraintError
  deriving Repr

/-- Source `ValueValidationError` from `errors.rs`: the offending value plus the
full ordered list of failed-constraint causes. -/
structure ValueValidationError where
  offending_value : Value
  failed_constraints : List ConstraintError
  deriving Repr

/-- Source `TypeConstraint::validate` (`ValidatesValues` impl). -/
def TypeConstraint.validate (c : TypeConstraint) (value : Value) :
    Except ValueValidationError Unit :=
  match c, value.get_value_type with
  | .isType expected, received =>
    if expected = received then
      .ok ()
    else
      .error
        { offending_value := value
          failed_constraints := [ConstraintError.typeError expected received] }

/-- The `_to_valueconstraint_err!` macro: a one-element error list holding
the failed constraint itself. -/
def toValueConstraintErr (value : Value) (constraint : ValueConstraint) :
    Except ValueValidationError Unit :=
  .error
    { offending_value := value
      failed_constraints := [ConstraintError.valueError constraint] }

/-- Rust `OneOf` loop: is the value structurally equal to one member. -/
def isOneOfTheAllowed (value : Value) (allowed : List Value) : Bool :=
  allowed.any (fun a => valueBeq value a)

/-- Source `ValueConstraint::validate` (`ValidatesValues` impl). Every failure
carries exactly one `ConstraintError`. -/
def ValueConstraint.validate (c : ValueConstraint) (value : Value) :
    Except ValueValidationError Unit :=
  match c, value with
  | .any, _ => .ok ()
  | .notC inner, _ =>
    match inner.validate value with
    | .ok () => toValueConstraintErr value (.notC inner)
    | .error _ => .ok ()
  | .oneOf allowed, _ =>
    if isOneOfTheAllowed value allowed then .ok ()
    else toValueConstraintErr value (.oneOf allowed)
  | .maximum maxB, _ =>
    if valueLe value maxB then .ok () else toValueConstraintErr value (.maximum maxB)
  | .minimum minB, _ =>
    if valueGe value minB then .ok () else toValueConstraintErr value (.minimum minB)
  | .maximumLength len, .text t =>
    if t.utf8ByteSize ≤ len then .ok ()
    else toValueConstraintErr (.text t) (.maximumLength len)
  | .minimumLength len, .text t =>
    if t.utf8ByteSize ≥ len then .ok ()
    else toValueConstraintErr (.text t) (.minimumLength len)
  | .maximumLength _, _ =>
    .error { offending_value := value
             failed_constraints := [ConstraintError.invalidConstraintError] }
  | .minimumLength _, _ =>
    .error { offending_value := value
             failed_constraints := [ConstraintError.invalidConstraintError] }

/-- Source `ValueContract` from `value/constraint.rs`. -/
structure ValueContract where
  expected_type : TypeConstraint
  value_constraints : List ValueConstraint
  deriving Repr

/-- The `failed_constraints` a single validator contributes to the
contract aggregation (`[]` when it passes). -/
def errsOfType (tc : TypeConstraint) (value : Value) : List ConstraintError :=
  match tc.validate value with
  | .ok () => []
  | .error e => e.failed_constraints

/-- The `failed_constraints` one value constraint contributes. -/
def errsOfVC (vc : ValueConstraint) (value : Value) : List ConstraintError :=
  match vc.validate value with
  | .ok () => []
  | .error e => e.failed_constraints

/-- One step of the `ValueContract::validate` loop over value
constraints: state is (`errors_found`, collected `errors`). -/
def contractStep (value : Value) (acc : Bool × List ConstraintError)
    (vc : ValueConstraint) : Bool × List ConstraintError :=
  match vc.validate value with
  | .ok () => acc
  | .error vce => (true, acc.2 ++ vce.failed_constraints)

/-- Source `ValueContract::validate`: runs the type constraint, then every value
constraint, without short-circuiting, extending one error list in order;
fails iff any validator failed. -/
def ValueContract.validate (c : ValueContract) (value : Value) :
    Except ValueValidationError Unit :=
  let init : Bool × List ConstraintError :=
    match c.expected_type.validate value with
    | .ok () => (false, [])
    | .error tce => (true, tce.failed_constraints)
  let res := c.value_constraints.foldl (contractStep value) init
  if res.1 then
    .error { offending_value := value, failed_constraints := res.2 }
  else
    .ok ()

-- Coercion engine (src/value/coercion.rs)

/-- Modelled from the spec: the `CoercionError` taxonomy. Its defining
module is not under `src/` (only `value/coercion.rs`, which constructs
it, is); the spec names `CoercionImpossible{from,to}` (categorical,
type-level), `CoercionFailed{target_type, source_value}` and
`DomainError`; `UnexpectedType` is the helper-misuse variant the coercion
code also constructs. -/
inductive CoercionError where
  | coercionImpossible (from_ to_ : ValueType)
  | unexpectedType
  | coercionFailed (target_type : ValueType) (source_text : String)
  | domainError (msg : String)
  deriving Repr

/-- Rust's `str::parse::<i64>`: optional sign, one or more ASCII digits,
nothing else, result within the `i64` range. -/
def parseRustI64 (s : String) : Option Int :=
  let digitsVal : List Char → Option Nat := fun cs =>
    if cs.isEmpty ∨ ¬ cs.all Char.isDigit then none
    else some (cs.foldl (fun n c => n * 10 + (c.toNat - 48)) 0)
  let fromParts : Bool → List Char → Option Int := fun neg cs =>
    match digitsVal cs with
    | none => none
    | some n =>
      if neg then
        if n ≤ 2 ^ 63 then some (-(n : Int)) else none
      else
        if n ≤ 2 ^ 63 - 1 then some (n : Int) else none
  match s.data with
  | '+' :: rest => fromParts false rest
  | '-' :: rest => fromParts true rest
  | cs => fromParts false cs

/-- Rust's `str::parse::<bool>`: exactly `true` or `false`. -/
def parseRustBool (s : String) : Option Bool :=
  if s = "true" then some true
  else if s = "false" then some false
  else none

/-- Modelled from the spec: the excluded text collaborators the coercion
engine delegates to — `f64` parsing/formatting (Rust std float parsing
is floating point, outside the shallow embedding) and chrono date-time
parsing/RFC-3339 formatting. The engine is parametrized over them; no
claim depends on their behaviour, only on which arm consumes them. -/
structure CoercionPrims where
  parseF64 : String → Option F64
  fmtF64 : F64 → String
  parseLocalDateTime : String → Option DateTime
  fmtRfc3339 : DateTime → String

/-- A trivial instantiation of `CoercionPrims`, used only to state closed
counterexamples whose truth does not depend on the primitives. -/
def trivialCoercionPrims : CoercionPrims where
  parseF64 := fun _ => none
  fmtF64 := fun _ => ""
  parseLocalDateTime := fun _ => none
  fmtRfc3339 := fun _ => ""

/-- Source `Coercion::text_to_number`: try `i64`, then `f64`, else
`CoercionFailed`. -/
def text_to_number (p : CoercionPrims) (value : Value) :
    Except CoercionError Value :=
  match value with
  | .text s =>
    match parseRustI64 s with
    | some x => .ok (.number (.integer x))
    | none =>
      match p.parseF64 s with
      | some f => .ok (.number (.real f))
      | none => .error (.coercionFailed .number s)
  | _ => .error .unexpectedType

/-- Source `Coercion::text_to_boolean`. -/
def text_to_boolean (value : Value) : Except CoercionError Value :=
  match value with
  | .text s =>
    match parseRustBool s with
    | some b => .ok (.boolean b)
    | none => .error (.coercionFailed .boolean s)
  | _ => .error .unexpectedType

/-- Source `Coercion::text_to_datetime` (delegates to the chrono collaborator). -/
def text_to_datetime (p : CoercionPrims) (value : Value) :
    Except CoercionError Value :=
  match value with
  | .text s =>
    match p.parseLocalDateTime s with
    | some t => .ok (.dateTime t)
    | none => .error (.coercionFailed .dateTime s)
  | _ => .error .unexpectedType

/-- Source `Coercion::number_to_text`. -/
def number_to_text (p : CoercionPrims) (value : Value) :
    Except CoercionError Value :=
  match value with
  | .number (.integer i) => .ok (.text (toString i))
  | .number (.real r) => .ok (.text (p.fmtF64 r))
  | .number (.complex _ _) =>
    .error (.domainError "Conversion for complex numbers is currently not supported.")
  | _ => .error .unexpectedType

/-- Source `Coercion::boolean_to_text`. -/
def boolean_to_text (value : Value) : Except CoercionError Value :=
  match value with
  | .boolean b => .ok (.text (if b then "true" else "false"))
  | _ => .error .unexpectedType

/-- Source `Coercion::datetime_to_text`. -/
def datetime_to_text (p : CoercionPrims) (value : Value) :
    Except CoercionError Value :=
  match value with
  | .dateTime t => .ok (.text (p.fmtRfc3339 t))
  | _ => .error .unexpectedType

/-- Source `Coercion::boolean_to_number`. -/
def boolean_to_number (value : Value) : Except CoercionError Value :=
  match value with
  | .boolean true => .ok (.number (.integer 1))
  | .boolean false => .ok (.number (.integer 0))
  | _ => .error .unexpectedType

/-- Source `Coercion::number_to_boolean`: integer `0`/`1` only; any other
integer is a `DomainError`; a non-integer `Number` (or non-number) falls
into the catch-all `UnexpectedType` arm. -/
def number_to_boolean (value : Value) : Except CoercionError Value :=
  match value with
  | .number (.integer i) =>
    if i = 0 then .ok (.boolean false)
    else if i = 1 then .ok (.boolean true)
    else
      .error (.domainError
        s!"Boolean values accepted only as 0 or 1 for integers. Got {i}.")
  | _ => .error .unexpectedType

/-- Source `Coercion::convert` (`CoercesValues` impl): the match arms are in the
source's order, which matters for the `Missing` row/column. -/
def convert (p : CoercionPrims) (value : Value) (to_vtype : ValueType) :
    Except CoercionError Value :=
  match value.get_value_type, to_vtype with
  | .number, .number => .ok value
  | .dateTime, .dateTime => .ok value
  | .boolean, .boolean => .ok value
  | .text, .text => .ok value
  | .composite, .composite => .ok value
  | .text, .number => text_to_number p value
  | .text, .boolean => text_to_boolean value
  | .text, .composite => .error (.coercionImpossible .text .composite)
  | .text, .dateTime => text_to_datetime p value
  | .number, .text => number_to_text p value
  | .boolean, .text => boolean_to_text value
  | .dateTime, .text => datetime_to_text p value
  | .number, .boolean => number_to_boolean value
  | .boolean, .number => boolean_to_number value
  | a, .missing => .error (.coercionImpossible a .missing)
  | .missing, b => .error (.coercionImpossible .missing b)
  | .composite, b => .error (.coercionImpossible .composite b)
  | a, .composite => .error (.coercionImpossible a .composite)
  | a, .dateTime => .error (.coercionImpossible a .dateTime)
  | .dateTime, b => .error (.coercionImpossible .dateTime b)

-- Literal parser (src/value/parsing.rs)

/-- The number node of the opaque JSON literal tree (serde_json's
`Number`): an unsigned integer, a negative integer, or a float. -/
inductive JsNumber where
  | posInt (n : Nat)
  | negInt (i : Int)
  | float (f : F64)
  deriving Repr

/-- Source `serde_json::Number::is_i64`. -/
def JsNumber.isI64 : JsNumber → Bool
  | .posInt n => n ≤ 2 ^ 63 - 1
  | .negInt _ => true
  | .float _ => false

/-- Source `serde_json::Number::as_i64`. -/
def JsNumber.asI64 : JsNumber → Option Int
  | .posInt n => if n ≤ 2 ^ 63 - 1 then some (n : Int) else none
  | .negInt i => some i
  | .float _ => none

/-- Source `serde_json::Number::is_f64`. -/
def JsNumber.isF64 : JsNumber → Bool
  | .float _ => true
  | _ => false

/-- Source `serde_json::Number::as_f64`, modelled only on the branch the source
reaches (a stored float); the int-to-float cast is never consumed by the
embedded code. -/
def JsNumber.asF64 : JsNumber → Option F64
  | .float f => some f
  | _ => none

/-- The opaque JSON literal tree (`serde_json::Value`): null, boolean,
number, string, array, object. -/
inductive JsValue where
  | null
  | bool (b : Bool)
  | num (n : JsNumber)
  | str (s : String)
  | arr (xs : List JsValue)
  | obj (kvs : List (String × JsValue))
  deriving Repr

/-- Source `iso8601::Date` (shape of the excluded collaborator's output). The
source converts its wider fields with `try_into().unwrap()`; the widths
are modelled directly at the target sizes since they are not load-bearing
for any claim. -/
inductive Iso8601Date where
  | ymd (year : Int) (month day : Nat)
  | week (year : Int) (ww d : Nat)
  | ordinalDate (year : Int) (ddd : Nat)
  deriving Repr

/-- Source `iso8601::Time` (shape of the excluded collaborator's output). -/
structure Iso8601Time where
  hour : Nat
  minute : Nat
  second : Nat
  millisecond : Nat
  tzOffsetHours : Int
  tzOffsetMinutes : Int
  deriving Repr

/-- Source `iso8601::DateTime`. -/
structure Iso8601DateTime where
  date : Iso8601Date
  time : Iso8601Time
  deriving Repr

/-- Source `translate_iso8601::date_to_dk_date`. -/
def date_to_dk_date : Iso8601Date → Date
  | .ymd year month day => .yearMonthDay year month day
  | .week year ww d => .yearWeekDay year ww d
  | .ordinalDate year ddd => .yearDay year ddd

/-- Source `translate_iso8601::time_to_dk_time`: UTC iff both offsets are zero;
micro and nano are always zero. -/
def time_to_dk_time (t : Iso8601Time) : Time :=
  let tz :=
    if t.tzOffsetHours = 0 ∧ t.tzOffsetMinutes = 0 then
      TimeZone.utc
    else
      TimeZone.offset t.tzOffsetHours t.tzOffsetMinutes
  { hour := t.hour, minute := t.minute, second := t.second
    milli := t.millisecond, micro := 0, nano := 0, timezone := tz }

/-- Source `translate_iso8601::datetime_to_dk_datetime`. -/
def datetime_to_dk_datetime (dt : Iso8601DateTime) : DateTime :=
  .full (date_to_dk_date dt.date) (time_to_dk_time dt.time)

/-- Modelled from the spec: the two excluded text-parsing collaborators —
the generic JSON literal-tree producer (serde_json) and the ISO-8601
date/time text parsers. The parser embedding is parametrized over them. -/
structure ParserPrims where
  jsonFromStr : String → Option JsValue
  isoDatetime : String → Option Iso8601DateTime
  isoDate : String → Option Iso8601Date
  isoTime : String → Option Iso8601Time

/-- Source `translate_iso8601::iso8601_to_dk_value`: full datetime first, then
date alone, then time alone. -/
def iso8601_to_dk_value (p : ParserPrims) (s : String) : Except Unit Value :=
  match p.isoDatetime s with
  | some dt => .ok (.dateTime (datetime_to_dk_datetime dt))
  | none =>
    match p.isoDate s with
    | some d => .ok (.dateTime (.date (date_to_dk_date d)))
    | none =>
      match p.isoTime s with
      | some t => .ok (.dateTime (.time (time_to_dk_time t)))
      | none => .error ()

mutual

/-- Source `jsvalue_to_dkvalue`: recursively converts the opaque literal tree
into `Value`; string nodes are re-checked for an embedded date/time
before falling back to `Text`. -/
def jsvalue_to_dkvalue (p : ParserPrims) : JsValue → Value
  | .null => .missing .expected
  | .bool x => .boolean x
  | .str s =>
    match iso8601_to_dk_value p s with
    | .ok datetime => datetime
    | .error () => .text s
  | .num jsnum =>
    if jsnum.isI64 then
      match jsnum.asI64 with
      | some result => .number (.integer result)
      | none => .missing .unexpected
    else if jsnum.isF64 then
      match jsnum.asF64 with
      | some result => .number (.real result)
      | none => .missing .unexpected
    else
      .missing .unexpected
  | .arr xs => .composite (.array (jsArrToDk p xs))
  | .obj kvs => .composite (.object (jsObjToDk p kvs))

/-- The array recursion of `jsvalue_to_dkvalue`. -/
def jsArrToDk (p : ParserPrims) : List JsValue → List Value
  | [] => []
  | x :: xs => jsvalue_to_dkvalue p x :: jsArrToDk p xs

/-- The object recursion of `jsvalue_to_dkvalue` (iteration order of the
opaque map is inherited from the literal tree). -/
def jsObjToDk (p : ParserPrims) : List (String × JsValue) → List (String × Value)
  | [] => []
  | (k, x) :: kvs => (k, jsvalue_to_dkvalue p x) :: jsObjToDk p kvs

end

/-- Modelled from the spec: `ParsingError` — total parse failure yields
`CannotParse(originalText)` (the error enum's defining module is not
under `src/`; `value/parsing.rs` constructs
`ParsingError::CannotParseValue`). -/
inductive ParsingError where
  | cannotParseValue (s : String)
  deriving DecidableEq, Repr

/-- Source `Parser::parse` (`ParsesValues` impl): delegate the whole text to the
JSON literal-tree collaborator; convert its tree on success, otherwise
`CannotParseValue`. There is no whole-text date/time attempt here. -/
def Parser.parse (p : ParserPrims) (s : String) : Except ParsingError Value :=
  match p.jsonFromStr s with
  | some jsvalue => .ok (jsvalue_to_dkvalue p jsvalue)
  | none => .error (.cannotParseValue s)

-- Table, schema and validation engine (src/table.rs)

/-- Source `ColumnContract` from `table.rs`. -/
structure ColumnContract where
  name : String
  value_contract : ValueContract
  deriving Repr

/-- Source `Schema` from `table.rs`. -/
structure Schema where
  column_contracts : List ColumnContract
  deriving Repr

/-- Source `Schema::new`. -/
def Schema.new : Schema := ⟨[]⟩

/-- Source `Schema::from_tuples`: pushes one contract per tuple, in order, with
no name deduplication or error. -/
def Schema.from_tuples (tuples : List (String × ValueContract)) : Schema :=
  ⟨tuples.map (fun t => { name := t.1, value_contract := t.2 })⟩

/-- Source `ColumnId` from `table.rs`. -/
inductive ColumnId where
  | ordinal (o : Nat)
  | name (n : String)
  deriving Repr

/-- Source `ColumnError` from `table.rs`. -/
inductive ColumnError where
  | unknown (id : ColumnId)
  | alreadyExists (ordinal : Nat) (name : String)
  | containsInvalidValues (contract : ColumnContract)
      (errors : List (Nat × ValueValidationError))
  deriving Repr

/-- Source `TableError` from `table.rs`. The `InvalidData` payload is a
`HashMap<String, _>`, modelled as an association list built by
`hashMapInsert`; its iteration order is not modelled (no claim needs
it). -/
inductive TableError where
  | dimensionError
  | columnError (e : ColumnError)
  | invalidData (m : List (String × List (Nat × ValueValidationError)))
  deriving Repr

/-- Source `HashMap::insert`: replace the binding if the key is present,
otherwise add it. -/
def hashMapInsert {β : Type} (m : List (String × β)) (k : String) (v : β) :
    List (String × β) :=
  match m with
  | [] => [(k, v)]
  | (k', v') :: rest =>
    if k' = k then (k, v) :: rest else (k', v') :: hashMapInsert rest k v

/-- Source `Table` from `table.rs`: columnar storage plus the stored `col_length`
and `row_length` counters (kept as independent fields, as in the
source). -/
structure Table where
  columns : List (List Value)
  column_contracts : List ColumnContract
  col_length : Nat
  row_length : Nat
  deriving Repr

/-- Source `Table::new`. -/
def Table.new : Table :=
  { columns := [], column_contracts := [], col_length := 0, row_length := 0 }

/-- Source `Table::from_schema`: one empty column per contract. -/
def Table.from_schema (schema : Schema) : Table :=
  { columns := List.replicate schema.column_contracts.length []
    column_contracts := schema.column_contracts
    col_length := schema.column_contracts.length
    row_length := 0 }

/-- Source `Table::column_order`: position of the first contract with the given
name. -/
def column_order_core (contracts : List ColumnContract) (col_name : String) :
    Option Nat :=
  contracts.findIdx? (fun c => c.name == col_name)

/-- Source `Table::column_order` on a table. -/
def Table.column_order (t : Table) (col_name : String) : Option Nat :=
  column_order_core t.column_contracts col_name

/-- Source `Table::resolve_column_id`: a name is looked up (`Unknown` if
absent); an ordinal is returned unchecked. -/
def resolve_column_id_core (contracts : List ColumnContract) (col_id : ColumnId) :
    Except TableError Nat :=
  match col_id with
  | .name n =>
    match column_order_core contracts n with
    | some id => .ok id
    | none => .error (.columnError (.unknown (.name n)))
  | .ordinal ord => .ok ord

/-- Source `Table::resolve_column_id` on a table. -/
def Table.resolve_column_id (t : Table) (col_id : ColumnId) :
    Except TableError Nat :=
  resolve_column_id_core t.column_contracts col_id

/-- Source `Table::add_empty_column`: rejects a duplicate name, otherwise pushes
the contract and a new empty column (`Vec::new()`), regardless of
`row_length`. -/
def Table.add_empty_column (t : Table) (cc : ColumnContract) :
    RResult Table TableError :=
  match t.column_order cc.name with
  | some ordinal => .err (.columnError (.alreadyExists ordinal cc.name))
  | none =>
    .ok { t with
          column_contracts := t.column_contracts ++ [cc]
          columns := t.columns ++ [[]]
          col_length := t.col_length + 1 }

/-- Source `Table::remove_column`: `Vec::remove` panics when the resolved
ordinal is out of bounds; `col_length -= 1` is `Nat` subtraction (the
source would panic at zero in debug builds, unreachable after a
successful removal). -/
def Table.remove_column (t : Table) (col_id : ColumnId) :
    RResult Table TableError :=
  match t.resolve_column_id col_id with
  | .error e => .err e
  | .ok ordinal =>
    if ordinal < t.column_contracts.length then
      if ordinal < t.columns.length then
        .ok { t with
              column_contracts := t.column_contracts.eraseIdx ordinal
              columns := t.columns.eraseIdx ordinal
              col_length := t.col_length - 1 }
      else .crash
    else .crash

/-- The `add_row` loop: push the i-th row value onto the i-th column;
indexing `columns[col_index]` panics (`none`) when the row is longer
than the column list, and leaves trailing columns untouched when it is
shorter. -/
def pushRow : List (List Value) → List Value → Option (List (List Value))
  | cols, [] => some cols
  | [], _ :: _ => none
  | col :: cols, v :: vs => (pushRow cols vs).map (fun rest => (col ++ [v]) :: rest)

/-- Source `Table::add_row`: reject on arity mismatch against `col_length`
(nothing mutated), otherwise push each value and bump `row_length`. -/
def Table.add_row (t : Table) (row : List Value) : RResult Table TableError :=
  if row.length ≠ t.col_length then
    .err .dimensionError
  else
    match pushRow t.columns row with
    | none => .crash
    | some cols => .ok { t with columns := cols, row_length := t.row_length + 1 }

/-- Source `Table::column`: resolve, then index `self.columns[ordinal]`
(panics when out of bounds). -/
def Table.column (t : Table) (col_id : ColumnId) :
    RResult (List Value) TableError :=
  match t.resolve_column_id col_id with
  | .error e => .err e
  | .ok ordinal =>
    match t.columns[ordinal]? with
    | some col => .ok col
    | none => .crash

/-- Source `Table::column_contract`: resolve, then index
`self.column_contracts[ordinal]`. -/
def Table.column_contract (t : Table) (col_id : ColumnId) :
    RResult ColumnContract TableError :=
  match t.resolve_column_id col_id with
  | .error e => .err e
  | .ok ordinal =>
    match t.column_contracts[ordinal]? with
    | some cc => .ok cc
    | none => .crash

/-- Source `Table::alter_column`: replace the contract in place (index
assignment panics when out of bounds); data untouched. -/
def Table.alter_column (t : Table) (col_id : ColumnId) (cc : ColumnContract) :
    RResult Table TableError :=
  match t.resolve_column_id col_id with
  | .error e => .err e
  | .ok ordinal =>
    if ordinal < t.column_contracts.length then
      .ok { t with column_contracts := t.column_contracts.set ordinal cc }
    else .crash

/-- The collection loop of `validate_column_against_contract`: validate
every value of the column against the contract, collecting
`(rowno, error)` pairs exhaustively. -/
def collectColumnErrors (cc : ColumnContract) (column : List Value) :
    List (Nat × ValueValidationError) :=
  column.enum.filterMap fun rv =>
    match cc.value_contract.validate rv.2 with
    | .ok () => none
    | .error e => some (rv.1, e)

/-- Source `Table::validate_column_against_contract`. -/
def Table.validate_column_against_contract (t : Table) (col_id : ColumnId)
    (column_contract : ColumnContract) : RResult Unit TableError :=
  match t.resolve_column_id col_id with
  | .error e => .err e
  | .ok ordinal =>
    match t.columns[ordinal]? with
    | none => .crash
    | some column =>
      let result := collectColumnErrors column_contract column
      if result.length = 0 then .ok ()
      else .err (.columnError (.containsInvalidValues column_contract result))

/-- Source `Table::validate_column`: look up the column's own contract
(indexing panics out of bounds), then validate against it. -/
def Table.validate_column (t : Table) (col_id : ColumnId) :
    RResult Unit TableError :=
  match t.resolve_column_id col_id with
  | .error e => .err e
  | .ok ordinal =>
    match t.column_contracts[ordinal]? with
    | none => .crash
    | some cc => t.validate_column_against_contract (.ordinal ordinal) cc

/-- Wrapping `usize` subtraction (release-build semantics). The source
computes `col_contracts.len() - 1`, which underflows when the contract
list is empty; in debug builds the subtraction itself panics, and in
release builds it wraps and the out-of-bounds index that follows panics
instead — either way the call panics, which is what the embedding
exhibits. -/
def usizeWrapSub (a b : Nat) : Nat :=
  (a + 2 ^ 64 - b) % 2 ^ 64

/-- The loop of `validate_table_against_contracts`, over the column
ordinals: lenient mode breaks past the contract list, strict mode
returns `Unknown` for the first ordinal past it (previously collected
errors are discarded); a `ContainsInvalidValues` failure is inserted
into the name-keyed map under the table's own contract name, and any
other column error is silently dropped. -/
def vtacGo (t : Table) (col_contracts : List ColumnContract) (strict : Bool) :
    List Nat → List (String × List (Nat × ValueValidationError)) →
    RResult (List (String × List (Nat × ValueValidationError))) TableError
  | [], acc => .ok acc
  | ordinal :: rest, acc =>
    if ¬ strict ∧ ordinal > usizeWrapSub col_contracts.length 1 then
      .ok acc
    else if strict ∧ ordinal > usizeWrapSub col_contracts.length 1 then
      .err (.columnError (.unknown (.ordinal ordinal)))
    else
      match col_contracts[ordinal]? with
      | none => .crash
      | some cc =>
        match t.validate_column_against_contract (.ordinal ordinal) cc with
        | .crash => .crash
        | .ok () => vtacGo t col_contracts strict rest acc
        | .err (.columnError (.containsInvalidValues _ errors)) =>
          match t.column_contracts[ordinal]? with
          | none => .crash
          | some own => vtacGo t col_contracts strict rest (hashMapInsert acc own.name errors)
        | .err _ => vtacGo t col_contracts strict rest acc

/-- Source `Table::validate_table_against_contracts`. -/
def Table.validate_table_against_contracts (t : Table)
    (col_contracts : List ColumnContract) (strict : Bool) :
    RResult Unit TableError :=
  match vtacGo t col_contracts strict (List.range t.columns.length) [] with
  | .crash => .crash
  | .err e => .err e
  | .ok result => if result.isEmpty then .ok () else .err (.invalidData result)

/-- Source `Table::validate_table`: against the table's own contracts, strict. -/
def Table.validate_table (t : Table) : RResult Unit TableError :=
  t.validate_table_against_contracts t.column_contracts true

/-- Source `Table::validate_table_against_schema`. -/
def Table.validate_table_against_schema (t : Table) (schema : Schema)
    (strict : Bool) : RResult Unit TableError :=
  t.validate_table_against_contracts schema.column_contracts strict

/-- The per-row loop of `map_column`: read `columns[ordinal][rowno]`
(panic when out of bounds) and write back the transformed value. -/
def mapColumnGo (f : Value → Value) (ordinal : Nat) :
    List Nat → List (List Value) → Option (List (List Value))
  | [], cols => some cols
  | rowno :: rest, cols =>
    match cols[ordinal]? with
    | none => none
    | some col =>
      match col[rowno]? with
      | none => none
      | some old_value =>
        mapColumnGo f ordinal rest (cols.set ordinal (col.set rowno (f old_value)))

/-- Source `Table::map_column`. -/
def Table.map_column (t : Table) (col_id : ColumnId) (f : Value → Value) :
    RResult Table TableError :=
  match t.resolve_column_id col_id with
  | .error e => .err e
  | .ok ordinal =>
    match mapColumnGo f ordinal (List.range t.row_length) t.columns with
    | none => .crash
    | some cols => .ok { t with columns := cols }

/-- The inner predicates loop of `map_column_if`. The source's
`if !predicate(other_col_value) { continue; }` continues this inner loop
itself (not the row loop), so the predicate's result is computed and
discarded; the loop's only effects are the resolution error and the
indexing panic. -/
def predsLoop (contracts : List ColumnContract) (cols : List (List Value))
    (rowno : Nat) : List (ColumnId × (Value → Bool)) → RResult Unit TableError
  | [] => .ok ()
  | (other_col_id, predicate) :: rest =>
    match resolve_column_id_core contracts other_col_id with
    | .error e => .err e
    | .ok other_col_ordinal =>
      match cols[other_col_ordinal]? with
      | none => .crash
      | some otherCol =>
        match otherCol[rowno]? with
        | none => .crash
        | some other_col_value =>
          let _ := predicate other_col_value
          predsLoop contracts cols rowno rest

/-- The per-row loop of `map_column_if`: read the old value, run the
(ineffective) predicates loop, then apply the transform
unconditionally. -/
def mapColumnIfGo (contracts : List ColumnContract) (f : Value → Value)
    (predicates : List (ColumnId × (Value → Bool))) (ordinal : Nat) :
    List Nat → List (List Value) → RResult (List (List Value)) TableError
  | [], cols => .ok cols
  | rowno :: rest, cols =>
    match cols[ordinal]? with
    | none => .crash
    | some col =>
      match col[rowno]? with
      | none => .crash
      | some old_value =>
        match predsLoop contracts cols rowno predicates with
        | .err e => .err e
        | .crash => .crash
        | .ok () =>
          mapColumnIfGo contracts f predicates ordinal rest
            (cols.set ordinal (col.set rowno (f old_value)))

/-- Source `Table::map_column_if`. A predicate-resolution error is
row-independent, so it occurs (if ever) at row 0, before any cell is
written — the `err` outcome therefore leaves the source table
unchanged, matching the early `?` return on `&mut self`. -/
def Table.map_column_if (t : Table) (col_id : ColumnId) (f : Value → Value)
    (predicates : List (ColumnId × (Value → Bool))) :
    RResult Table TableError :=
  match t.resolve_column_id col_id with
  | .error e => .err e
  | .ok ordinal =>
    match mapColumnIfGo t.column_contracts f predicates ordinal
        (List.range t.row_length) t.columns with
    | .err e => .err e
    | .crash => .crash
    | .ok cols => .ok { t with columns := cols }

-- Concrete fixtures used by closed counterexamples and witnesses

/-- A contract requiring `Text` with no value constraints. -/
def vcText : ValueContract := { expected_type := .isType .text, value_constraints := [] }

/-- Column contract `a` over `vcText`. -/
def ccA : ColumnContract := { name := "a", value_contract := vcText }

/-- Column contract `b` over `vcText`. -/
def ccB : ColumnContract := { name := "b", value_contract := vcText }

/-- The one-column one-row table obtained from
`Table::from_schema(Schema::from_tuples([("a", vcText)]))` followed by
`add_row([Text("x")])` (the reachability equation is part of the
counterexamples that use it). -/
def tOne : Table :=
  { columns := [[Value.text "x"]]
    column_contracts := [ccA]
    col_length := 1
    row_length := 1 }

/-- Table `tOne` after `add_empty_column(ccB)`: the new column is empty even
though `row_length = 1`. -/
def tOneB : Table :=
  { columns := [[Value.text "x"], []]
    column_contracts := [ccA, ccB]
    col_length := 2
    row_length := 1 }

/-- A two-column one-row table (both cells valid `Text`). -/
def tTwo : Table :=
  { columns := [[Value.text "x"], [Value.text "y"]]
    column_contracts := [ccA, ccB]
    col_length := 2
    row_length := 1 }

/-- Modelled from the spec: the two excluded text-parsing collaborators,
instantiated at the single input `2021-01-01` — a bare (unquoted)
ISO-8601 date is not a JSON literal, so the generic literal-tree producer
fails on it, while the ISO-8601 date parser accepts it. -/
def bareDatePrims : ParserPrims where
  jsonFromStr := fun _ => none
  isoDatetime := fun _ => none
  isoDate := fun s => if s = "2021-01-01" then some (.ymd 2021 1 1) else none
  isoTime := fun _ => none

/-- The contract and offending value of the `C2` witness. -/
def c2Contract : ValueContract :=
  { expected_type := .isType .text
    value_constraints := [.maximumLength 2, .minimumLength 1, .any] }

/-- The error value `c2Contract.validate` produces on `Integer(5)`. -/
def c2Err : ValueValidationError :=
  { offending_value := .number (.integer 5)
    failed_constraints :=
      [.typeError .text .number, .invalidConstraintError, .invalidConstraintError] }

/-- Does a coercion outcome carry a `DomainError`? -/
def resultIsDomainError : Except CoercionError Value → Bool
  | .error (.domainError _) => true
  | _ => false

/-- A table whose schema has two columns with the same name `n`. -/
def dupTable : Table :=
  Table.from_schema (Schema.from_tuples [("n", vcText), ("n", vcText)])

/-- Does a value constraint fail on a value? -/
def vcFails (vc : ValueConstraint) (v : Value) : Bool :=
  match vc.validate v with
  | .ok _ => false
  | .error _ => true

/-- Does a type constraint fail on a value? -/
def tcFails (tc : TypeConstraint) (v : Value) : Bool :=
  match tc.validate v with
  | .ok _ => false
  | .error _ => true

/-- The table invariants the spec states: as many columns as contracts
(with the stored `col_length` counter agreeing) and every column of
length `row_length`. -/
def Table.WellFormed (t : Table) : Prop :=
  t.columns.length = t.column_contracts.length
    ∧ t.col_length = t.column_contracts.length
    ∧ ∀ c ∈ t.columns, c.length = t.row_length

/-- What one in-range ordinal contributes to the name-keyed error map of
`validate_table_against_contracts`: nothing when the column validates,
otherwise an insert of its exhaustive error list under the table's own
contract name. -/
def vtacStep (t : Table) (col_contracts : List ColumnContract)
    (acc : List (String × List (Nat × ValueValidationError))) (o : Nat) :
    List (String × List (Nat × ValueValidationError)) :=
  match col_contracts[o]?, t.columns[o]?, t.column_contracts[o]? with
  | some cc, some col, some own =>
    match collectColumnErrors cc col with
    | [] => acc
    | errs => hashMapInsert acc own.name errs
  | _, _, _ => acc

/-- The name-keyed error map lenient validation accumulates: one
`vtacStep` per ordinal of the shorter of the column list and the contract
list. -/
def lenientErrorMap (t : Table) (col_contracts : List ColumnContract) :
    List (String × List (Nat × ValueValidationError)) :=
  (List.range (min t.columns.length col_contracts.length)).foldl
    (vtacStep t col_contracts) []

-- Theorems

-- Helper lemmas about the constraint engine

/-- Every error a single value constraint produces carries exactly one
`ConstraintError`. -/
theorem vc_error_singleton (vc : ValueConstraint) (v : Value)
    (e : ValueValidationError) (h : vc.validate v = .error e) :
    e.failed_constraints.length = 1 := by
  cases vc <;> cases v <;>
    simp only [ValueConstraint.validate, toValueConstraintErr] at h <;>
    (try split at h) <;>
    (try injection h with h) <;>
    (try subst h) <;>
    simp_all

/-- Every error the type constraint produces carries exactly one
`ConstraintError`. -/
theorem tc_error_singleton (tc : TypeConstraint) (v : Value)
    (e : ValueValidationError) (h : tc.validate v = .error e) :
    e.failed_constraints.length = 1 := by
  cases tc with
  | isType expected =>
    simp only [TypeConstraint.validate] at h
    split at h <;> (try injection h with h) <;> (try subst h) <;> simp_all

/-- Length of one constraint's error contribution. -/
theorem errsOfVC_length (vc : ValueConstraint) (v : Value) :
    (errsOfVC vc v).length = if vcFails vc v then 1 else 0 := by
  unfold errsOfVC vcFails
  cases h : vc.validate v with
  | ok a => simp
  | error e => simpa using vc_error_singleton vc v e h

/-- Length of the type constraint's error contribution. -/
theorem errsOfType_length (tc : TypeConstraint) (v : Value) :
    (errsOfType tc v).length = if tcFails tc v then 1 else 0 := by
  unfold errsOfType tcFails
  cases h : tc.validate v with
  | ok a => simp
  | error e => simpa using tc_error_singleton tc v e h

/-- One step of the contract loop in closed form. -/
theorem contractStep_eq (v : Value) (b : Bool) (errs : List ConstraintError)
    (vc : ValueConstraint) :
    contractStep v (b, errs) vc = (b || vcFails vc v, errs ++ errsOfVC vc v) := by
  unfold contractStep vcFails errsOfVC
  cases h : vc.validate v <;> simp

/-- The contract loop accumulates the error flag and the concatenated
error lists of the value constraints, in order. -/
theorem contract_foldl (v : Value) (vcs : List ValueConstraint) :
    ∀ (b : Bool) (errs : List ConstraintError),
      vcs.foldl (contractStep v) (b, errs)
        = (b || vcs.any (fun vc => vcFails vc v),
           errs ++ vcs.flatMap (fun vc => errsOfVC vc v)) := by
  induction vcs with
  | nil => intro b errs; simp
  | cons vc rest ih =>
    intro b errs
    simp only [List.foldl_cons, contractStep_eq, ih, List.any_cons,
      List.flatMap_cons, List.append_assoc, Bool.or_assoc]

/-- Length of the concatenated error lists equals the number of failing
constraints. -/
theorem flatMap_errs_length (v : Value) (vcs : List ValueConstraint) :
    (vcs.flatMap (fun vc => errsOfVC vc v)).length
      = vcs.countP (fun vc => vcFails vc v) := by
  induction vcs with
  | nil => simp
  | cons vc rest ih =>
    simp [List.countP_cons, errsOfVC_length, ih]
    omega

/-- A constraint passes iff it does not fail (`Unit`-valued `Except`). -/
theorem vcFails_iff (vc : ValueConstraint) (v : Value) :
    vcFails vc v = false ↔ vc.validate v = .ok () := by
  unfold vcFails
  cases h : vc.validate v with
  | ok a => cases a; simp
  | error e => simp

/-- C2: `ValueContract::validate` is `Ok` iff the type constraint and
every value constraint pass; on failure the error holds the value and
the type-error-then-constraint-order concatenation of all individual
failures, whose length is (1 if the type constraint failed, else 0) plus
the number of failing value constraints — no short-circuiting. -/
theorem c2_contract_validate (c : ValueContract) (v : Value) :
    (c.validate v = .ok ()
        ↔ (c.expected_type.validate v = .ok ()
            ∧ ∀ vc ∈ c.value_constraints, vc.validate v = .ok ()))
      ∧ (∀ e, c.validate v = .error e →
          e.offending_value = v
            ∧ e.failed_constraints
                = errsOfType c.expected_type v
                    ++ c.value_constraints.flatMap (fun vc => errsOfVC vc v)
            ∧ e.failed_constraints.length
                = (if tcFails c.expected_type v then 1 else 0)
                    + c.value_constraints.countP (fun vc => vcFails vc v)) := by
  have hvc : ∀ vc, vcFails vc v = false ↔ vc.validate v = .ok () :=
    fun vc => vcFails_iff vc v
  have htc : tcFails c.expected_type v = false ↔ c.expected_type.validate v = .ok () := by
    unfold tcFails
    cases h : c.expected_type.validate v with
    | ok a => cases a; simp
    | error e => simp
  have hbool :
      (tcFails c.expected_type v
          || c.value_constraints.any fun vc => vcFails vc v) = false
        ↔ (c.expected_type.validate v = .ok ()
            ∧ ∀ vc ∈ c.value_constraints, vc.validate v = .ok ()) := by
    rw [Bool.or_eq_false_iff, List.any_eq_false]
    constructor
    · rintro ⟨h1, h2⟩
      exact ⟨htc.mp h1,
        fun vc hm => (hvc vc).mp (Bool.eq_false_iff.mpr (h2 vc hm))⟩
    · rintro ⟨h1, h2⟩
      exact ⟨htc.mpr h1,
        fun vc hm => Bool.eq_false_iff.mp ((hvc vc).mpr (h2 vc hm))⟩
  have hmain : c.validate v
      = if (tcFails c.expected_type v || c.value_constraints.any (fun vc => vcFails vc v)) then
          .error { offending_value := v
                   failed_constraints :=
                     errsOfType c.expected_type v
                       ++ c.value_constraints.flatMap (fun vc => errsOfVC vc v) }
        else .ok () := by
    unfold ValueContract.validate tcFails errsOfType
    cases h : c.expected_type.validate v with
    | ok a => simp [contract_foldl]
    | error te => simp [contract_foldl]
  constructor
  · rw [hmain]
    cases hb : (tcFails c.expected_type v
        || c.value_constraints.any fun vc => vcFails vc v) with
    | false =>
      simp only [Bool.false_eq_true, if_false]
      exact iff_of_true (by trivial) (hbool.mp hb)
    | true =>
      simp only [if_true]
      refine iff_of_false (by simp) ?_
      intro hR
      have hf := hbool.mpr hR
      rw [hb] at hf
      exact absurd hf (by simp)
  · intro e he
    rw [hmain] at he
    split at he
    · cases he
      refine ⟨rfl, rfl, ?_⟩
      show (errsOfType c.expected_type v
          ++ c.value_constraints.flatMap (fun vc => errsOfVC vc v)).length = _
      rw [List.length_append, errsOfType_length, flatMap_errs_length]
    · exact absurd he (by simp)

/-- C2, witness for `c2_contract_validate` at a `Text` contract with
length constraints, applied to `Integer(5)`: one type error plus two
inapplicable-constraint errors, three in total. -/
theorem c2_contract_validate_witness :
    c2Err.offending_value = Value.number (.integer 5)
      ∧ c2Err.failed_constraints
          = errsOfType c2Contract.expected_type (.number (.integer 5))
              ++ c2Contract.value_constraints.flatMap
                  (fun vc => errsOfVC vc (.number (.integer 5)))
      ∧ c2Err.failed_constraints.length
          = (if tcFails c2Contract.expected_type (.number (.integer 5)) then 1 else 0)
              + c2Contract.value_constraints.countP
                  (fun vc => vcFails vc (.number (.integer 5))) :=
  (c2_contract_validate c2Contract (.number (.integer 5))).2 c2Err rfl

/-- C3, counterexample: coercing `Missing(Expected)` to its own type
(`Missing`) does not return `Ok` with the value unchanged — the
`(_, Missing)` match arm precedes any identity arm for `Missing`, so the
call returns `CoercionImpossible{from: Missing, to: Missing}`. -/
theorem c3_counterexample :
    convert trivialCoercionPrims (.missing .expected)
        ((Value.missing Empty.expected).get_value_type)
      = .error (.coercionImpossible .missing .missing) := by
  rfl

/-- C3, amended: `convert(x, type_of(x))` is `Ok(x)` for the five
non-`Missing` kinds (Number, Text, DateTime, Boolean, Composite); for a
`Missing` value it is `CoercionImpossible{Missing, Missing}`. -/
theorem c3_identity_coercion (p : CoercionPrims) (x : Value) :
    convert p x x.get_value_type
      = if x.get_value_type = .missing then
          .error (.coercionImpossible .missing .missing)
        else .ok x := by
  cases x <;> rfl

/-- C6, counterexample: the string-slice conversion (`From<&str>`) of the
empty text yields `Text("")`, not `Missing(Unexpected)` — only the
owned-string conversion has the empty-string rule. -/
theorem c6_counterexample :
    valueFromStr "" = Value.text ""
      ∧ Value.text "" ≠ Value.missing Empty.unexpected := by
  exact ⟨rfl, fun h => Value.noConfusion h⟩

/-- C6, amended: the owned-string conversion maps empty text to
`Missing(Unexpected)` and non-empty text to `Text`; the string-slice
conversion always yields `Text` with the same contents, including for
empty input. -/
theorem c6_text_conversions (s : String) :
    (s = "" → valueFromString s = Value.missing Empty.unexpected)
      ∧ (s ≠ "" → valueFromString s = Value.text s)
      ∧ valueFromStr s = Value.text s := by
  refine ⟨fun h => ?_, fun h => ?_, rfl⟩
  · simp [valueFromString, h]
  · simp [valueFromString, h]

/-- C6, witness for `c6_text_conversions` at `""` and `"hi"`. -/
theorem c6_text_conversions_witness :
    valueFromString "" = Value.missing Empty.unexpected
      ∧ valueFromString "hi" = Value.text "hi" := by
  exact ⟨(c6_text_conversions "").1 rfl,
         (c6_text_conversions "hi").2.1 (by simp)⟩

/-- C8, counterexample: coercing `Number(Real(_))` (and likewise
`Complex`) to `Boolean` returns `UnexpectedType`, not the `DomainError`
the claim states — only non-0/1 integers reach the `DomainError` arm. -/
theorem c8_counterexample :
    convert trivialCoercionPrims (.number (.real someF64)) .boolean
        = .error .unexpectedType
      ∧ convert trivialCoercionPrims (.number (.complex someF64 someF64)) .boolean
        = .error .unexpectedType
      ∧ resultIsDomainError
          (convert trivialCoercionPrims (.number (.real someF64)) .boolean) = false := by
  exact ⟨rfl, rfl, rfl⟩

/-- C8, amended: number-to-boolean coercion returns `Boolean(false)` for
`Integer(0)`, `Boolean(true)` for `Integer(1)`, a `DomainError` for every
other integer, and `UnexpectedType` (not `DomainError`) for every `Real`
or `Complex` number. -/
theorem c8_number_to_boolean (p : CoercionPrims) :
    (∀ i : Int,
      convert p (.number (.integer i)) .boolean
        = if i = 0 then .ok (.boolean false)
          else if i = 1 then .ok (.boolean true)
          else .error (.domainError
            s!"Boolean values accepted only as 0 or 1 for integers. Got {i}."))
      ∧ (∀ r : F64,
          convert p (.number (.real r)) .boolean = .error .unexpectedType)
      ∧ (∀ re im : F64,
          convert p (.number (.complex re im)) .boolean = .error .unexpectedType) := by
  exact ⟨fun i => rfl, fun r => rfl, fun re im => rfl⟩

/-- C7, the code evaluated at the failing input: `map_column_if` on a
one-row table, gated by a predicate that is false on every value, still
rewrites the gated cell — the source's `continue` only advances the inner
predicates loop, so the predicates never suppress the transform. -/
theorem c7_code_evaluation :
    tOne.map_column_if (.name "a") (fun _ => Value.text "MAPPED")
        [(ColumnId.name "a", fun _ => false)]
      = .ok { tOne with columns := [[Value.text "MAPPED"]] } := by
  rfl

/-- C9, counterexample: with one column, the column-addressed operations
at `Ordinal(1)` panic on the out-of-bounds index instead of returning a
`TableError` — `resolve_column_id` returns any ordinal unchecked. -/
theorem c9_counterexample :
    tOne.column (.ordinal 1) = .crash
      ∧ tOne.column_contract (.ordinal 1) = .crash
      ∧ tOne.remove_column (.ordinal 1) = .crash
      ∧ tOne.alter_column (.ordinal 1) ccB = .crash
      ∧ tOne.validate_column (.ordinal 1) = .crash
      ∧ tOne.validate_column_against_contract (.ordinal 1) ccB = .crash
      ∧ tOne.map_column (.ordinal 1) (fun v => v) = .crash
      ∧ tOne.map_column_if (.ordinal 1) (fun v => v) [] = .crash := by
  exact ⟨rfl, rfl, rfl, rfl, rfl, rfl, rfl, rfl⟩

/-- C4, counterexample: validating a one-column table against a
zero-length contract list panics in both modes (the source computes
`col_contracts.len() - 1`, which underflows, and then indexes the empty
contract list) — lenient mode does not stop gracefully as the claim
states for "any length, including zero". -/
theorem c4_counterexample :
    tOne.validate_table_against_contracts [] false = .crash
      ∧ tOne.validate_table_against_contracts [] true = .crash := by
  exact ⟨rfl, rfl⟩

/-- C1, counterexample: starting from the schema `[("a", vcText)]`,
adding the row `[Text("x")]` and then successfully adding the empty
column `b` leaves the new column with length 0 while `row_length = 1` —
the all-columns-have-length-`row_length` invariant is not preserved by
`add_empty_column` on a non-empty table. -/
theorem c1_counterexample :
    (Table.from_schema (Schema.from_tuples [("a", vcText)])).add_row [Value.text "x"]
        = .ok tOne
      ∧ tOne.add_empty_column ccB = .ok tOneB
      ∧ tOneB.row_length = 1
      ∧ tOneB.columns.map List.length = [1, 0] := by
  exact ⟨rfl, rfl, rfl, rfl⟩

/-- C5, counterexample: the parser delegates the whole text to the JSON
literal-tree collaborator only; a bare (unquoted) ISO-8601 date, which
the ISO-8601 date collaborator accepts, fails with `CannotParse` instead
of parsing to a `DateTime` value. -/
theorem c5_counterexample :
    bareDatePrims.isoDate "2021-01-01" = some (Iso8601Date.ymd 2021 1 1)
      ∧ Parser.parse bareDatePrims "2021-01-01"
          = .error (.cannotParseValue "2021-01-01") := by
  exact ⟨rfl, rfl⟩

/-- C5, amended: `parse` attempts only the generic JSON-shaped literal
grammar on the whole text — when that collaborator fails the result is
`CannotParse` regardless of what the date/time collaborators would say,
and when it succeeds the tree is converted by `jsvalue_to_dkvalue`, which
re-checks string nodes for an embedded ISO-8601 date/time (full datetime,
then date, then time) before falling back to `Text`. -/
theorem c5_parse_dispatch :
    (∀ (p : ParserPrims) (s : String),
      p.jsonFromStr s = none →
        Parser.parse p s = .error (.cannotParseValue s))
      ∧ (∀ (p : ParserPrims) (s : String) (j : JsValue),
          p.jsonFromStr s = some j →
            Parser.parse p s = .ok (jsvalue_to_dkvalue p j))
      ∧ (∀ (p : ParserPrims) (inner : String),
          jsvalue_to_dkvalue p (.str inner)
            = match iso8601_to_dk_value p inner with
              | .ok datetime => datetime
              | .error () => .text inner) := by
  refine ⟨fun p s h => ?_, fun p s j h => ?_, fun p inner => ?_⟩
  · simp [Parser.parse, h]
  · simp [Parser.parse, h]
  · rfl

/-- C5, witness for `c5_parse_dispatch`: the failing branch at the bare
date input, and the string-node re-check at a quoted date. -/
theorem c5_parse_dispatch_witness :
    Parser.parse bareDatePrims "2021-01-01"
        = .error (.cannotParseValue "2021-01-01")
      ∧ jsvalue_to_dkvalue bareDatePrims (.str "2021-01-01")
          = .dateTime (.date (.yearMonthDay 2021 1 1)) := by
  constructor
  · exact c5_parse_dispatch.1 bareDatePrims "2021-01-01" rfl
  · rw [c5_parse_dispatch.2.2 bareDatePrims "2021-01-01"]
    rfl

end Datakit

namespace Datakit

/-- C10: `Schema::from_tuples` and `Table::from_schema` keep duplicate
names as given (no error, no deduplication — both are total and
structure-preserving); resolving `ColumnId::Name(n)` yields the smallest
ordinal whose contract is named `n`, so any same-named column after the
first is never the result of name resolution. -/
theorem c10_duplicate_names_first_wins :
    (∀ tuples : List (String × ValueContract),
      (Schema.from_tuples tuples).column_contracts
          = tuples.map (fun t => { name := t.1, value_contract := t.2 })
        ∧ (Table.from_schema (Schema.from_tuples tuples)).column_contracts
            = tuples.map (fun t => { name := t.1, value_contract := t.2 })
        ∧ (Table.from_schema (Schema.from_tuples tuples)).columns
            = List.replicate tuples.length []
        ∧ (Table.from_schema (Schema.from_tuples tuples)).row_length = 0)
      ∧ (∀ (t : Table) (n : String) (i : Nat),
          t.resolve_column_id (.name n) = .ok i →
            (t.column_contracts[i]?).map ColumnContract.name = some n
              ∧ ∀ j, j < i →
                  (t.column_contracts[j]?).map ColumnContract.name ≠ some n)
      ∧ (∀ (t : Table) (n : String) (i : Nat),
          (t.column_contracts[i]?).map ColumnContract.name = some n →
            ∃ j, j ≤ i ∧ t.resolve_column_id (.name n) = .ok j) := by
  refine ⟨fun tuples => ⟨rfl, rfl, ?_, rfl⟩, ?_, ?_⟩
  · simp [Table.from_schema, Schema.from_tuples]
  · intro t n i h
    have hf : column_order_core t.column_contracts n = some i := by
      simp only [Table.resolve_column_id, resolve_column_id_core] at h
      cases hfo : column_order_core t.column_contracts n with
      | none => rw [hfo] at h; exact absurd h (by simp)
      | some id => rw [hfo] at h; simp at h; exact congrArg some h
    unfold column_order_core at hf
    rw [List.findIdx?_eq_some_iff_getElem] at hf
    obtain ⟨hlt, hp, hall⟩ := hf
    constructor
    · rw [List.getElem?_eq_getElem hlt]
      simpa using hp
    · intro j hj
      have hjlt : j < t.column_contracts.length := lt_trans hj hlt
      rw [List.getElem?_eq_getElem hjlt]
      have := hall j hj
      simpa using this
  · intro t n i h
    have hi : ∃ hlt : i < t.column_contracts.length,
        (t.column_contracts[i]).name = n := by
      cases hq : t.column_contracts[i]? with
      | none => rw [hq] at h; exact absurd h (by simp)
      | some cc =>
        rw [hq] at h
        simp at h
        rcases List.getElem?_eq_some_iff.mp hq with ⟨hlt, hcc⟩
        exact ⟨hlt, by rw [hcc, h]⟩
    obtain ⟨hlt, hname⟩ := hi
    cases hf : column_order_core t.column_contracts n with
    | none =>
      unfold column_order_core at hf
      rw [List.findIdx?_eq_none_iff] at hf
      have hmem := List.getElem_mem hlt
      have := hf _ hmem
      rw [hname] at this
      simp at this
    | some j =>
      have hres : t.resolve_column_id (.name n) = .ok j := by
        simp only [Table.resolve_column_id, resolve_column_id_core, hf]
      refine ⟨j, ?_, hres⟩
      unfold column_order_core at hf
      rw [List.findIdx?_eq_some_iff_getElem] at hf
      obtain ⟨hjlt, hpj, hmin⟩ := hf
      by_contra hji
      push_neg at hji
      have := hmin i hji
      rw [hname] at this
      simp at this

/-- C10, witness for `c10_duplicate_names_first_wins` on a table with two
columns both named `n`: both ordinals carry the name, and name
resolution returns ordinal 0. -/
theorem c10_duplicate_names_first_wins_witness :
    (dupTable.column_contracts[1]?).map ColumnContract.name = some "n"
      ∧ dupTable.resolve_column_id (.name "n") = .ok 0
      ∧ (dupTable.column_contracts[0]?).map ColumnContract.name = some "n" :=
  ⟨rfl, rfl, (c10_duplicate_names_first_wins.2.1 dupTable "n" 0 rfl).1⟩

end Datakit

namespace Datakit

/-- Helper: `pushRow` never changes the number of columns. -/
theorem pushRow_length :
    ∀ (cols : List (List Value)) (row : List Value) (cols' : List (List Value)),
      pushRow cols row = some cols' → cols'.length = cols.length := by
  intro cols
  induction cols with
  | nil =>
    intro row cols' h
    cases row with
    | nil => simp only [pushRow, Option.some.injEq] at h; subst h; rfl
    | cons v vs => simp [pushRow] at h
  | cons c cs ih =>
    intro row cols' h
    cases row with
    | nil => simp only [pushRow, Option.some.injEq] at h; subst h; rfl
    | cons v vs =>
      simp only [pushRow, Option.map_eq_some'] at h
      obtain ⟨rest, hrest, hc⟩ := h
      subst hc
      simp [ih vs rest hrest]

/-- When the row matches the column count, `pushRow` extends every column
by exactly one value. -/
theorem pushRow_mem :
    ∀ (cols : List (List Value)) (row : List Value) (cols' : List (List Value)),
      row.length = cols.length → pushRow cols row = some cols' →
      ∀ c' ∈ cols', ∃ c ∈ cols, c'.length = c.length + 1 := by
  intro cols
  induction cols with
  | nil =>
    intro row cols' hlen h c' hc'
    cases row with
    | nil =>
      simp only [pushRow, Option.some.injEq] at h
      subst h
      simp at hc'
    | cons v vs => simp at hlen
  | cons c cs ih =>
    intro row cols' hlen h c' hc'
    cases row with
    | nil => simp at hlen
    | cons v vs =>
      simp only [pushRow, Option.map_eq_some'] at h
      obtain ⟨rest, hrest, hcols'⟩ := h
      subst hcols'
      simp only [List.length_cons, Nat.add_right_cancel_iff] at hlen
      rcases List.mem_cons.mp hc' with hhead | htail
      · subst hhead
        exact ⟨c, List.mem_cons_self c cs, by simp⟩
      · obtain ⟨cOld, hmem, hlen'⟩ := ih vs rest hlen hrest c' htail
        exact ⟨cOld, List.mem_cons_of_mem c hmem, hlen'⟩

/-- The `map_column` loop preserves the column count and every column's
length. -/
theorem mapColumnGo_some (f : Value → Value) (ord : Nat) :
    ∀ (rows : List Nat) (cols cols' : List (List Value)),
      mapColumnGo f ord rows cols = some cols' →
      cols'.length = cols.length
        ∧ ∀ i : Nat, (cols'[i]?).map List.length = (cols[i]?).map List.length := by
  intro rows
  induction rows with
  | nil =>
    intro cols cols' h
    simp only [mapColumnGo, Option.some.injEq] at h
    subst h
    exact ⟨rfl, fun i => rfl⟩
  | cons rowno rest ih =>
    intro cols cols' h
    simp only [mapColumnGo] at h
    cases hcol : cols[ord]? with
    | none => rw [hcol] at h; exact absurd h (by simp)
    | some col =>
      simp only [hcol] at h
      cases hold : col[rowno]? with
      | none => rw [hold] at h; exact absurd h (by simp)
      | some old =>
        rw [hold] at h
        obtain ⟨hlen, hshape⟩ := ih _ _ h
        have hord : ord < cols.length := by
          rcases List.getElem?_eq_some_iff.mp hcol with ⟨hlt, _⟩
          exact hlt
        constructor
        · rw [hlen, List.length_set]
        · intro i
          rw [hshape i, List.getElem?_set]
          by_cases hoi : ord = i
          · subst hoi
            simp [hord, hcol]
          · simp [hoi]

/-- The `map_column_if` loop preserves the column count and every
column's length on its `ok` outcome. -/
theorem mapColumnIfGo_ok (contracts : List ColumnContract) (f : Value → Value)
    (preds : List (ColumnId × (Value → Bool))) (ord : Nat) :
    ∀ (rows : List Nat) (cols cols' : List (List Value)),
      mapColumnIfGo contracts f preds ord rows cols = .ok cols' →
      cols'.length = cols.length
        ∧ ∀ i : Nat, (cols'[i]?).map List.length = (cols[i]?).map List.length := by
  intro rows
  induction rows with
  | nil =>
    intro cols cols' h
    simp only [mapColumnIfGo] at h
    cases h
    exact ⟨rfl, fun i => rfl⟩
  | cons rowno rest ih =>
    intro cols cols' h
    simp only [mapColumnIfGo] at h
    cases hcol : cols[ord]? with
    | none => rw [hcol] at h; exact absurd h (by simp)
    | some col =>
      simp only [hcol] at h
      cases hold : col[rowno]? with
      | none => rw [hold] at h; exact absurd h (by simp)
      | some old =>
        rw [hold] at h
        cases hpred : predsLoop contracts cols rowno preds with
        | err e => rw [hpred] at h; exact absurd h (by simp)
        | crash => rw [hpred] at h; exact absurd h (by simp)
        | ok u =>
          cases u
          rw [hpred] at h
          obtain ⟨hlen, hshape⟩ := ih _ _ h
          have hord : ord < cols.length := by
            rcases List.getElem?_eq_some_iff.mp hcol with ⟨hlt, _⟩
            exact hlt
          constructor
          · rw [hlen, List.length_set]
          · intro i
            rw [hshape i, List.getElem?_set]
            by_cases hoi : ord = i
            · subst hoi
              simp [hord, hcol]
            · simp [hoi]

end Datakit

namespace Datakit

/-- C1, amended: every listed mutating operation preserves
`columns.len() == column_contracts.len()` (and the stored counter), and
all of them except `add_empty_column` also preserve the
every-column-has-length-`row_length` invariant; a successful
`add_empty_column` appends an empty column and leaves `row_length`
alone, so the full invariant survives it only when `row_length = 0`. An
`err` outcome models the source's early return before any mutation, so
the caller's table is unchanged and trivially still well-formed. -/
theorem c1_invariants_amended :
    (∀ (t : Table) (row : List Value) (t' : Table),
      t.WellFormed → t.add_row row = .ok t' → t'.WellFormed)
      ∧ (∀ (t : Table) (cc : ColumnContract) (t' : Table),
          t.WellFormed → t.add_empty_column cc = .ok t' →
            t'.columns.length = t'.column_contracts.length
              ∧ t'.col_length = t'.column_contracts.length
              ∧ t'.columns = t.columns ++ [[]]
              ∧ t'.row_length = t.row_length
              ∧ (t.row_length = 0 → t'.WellFormed))
      ∧ (∀ (t : Table) (cid : ColumnId) (t' : Table),
          t.WellFormed → t.remove_column cid = .ok t' → t'.WellFormed)
      ∧ (∀ (t : Table) (cid : ColumnId) (cc : ColumnContract) (t' : Table),
          t.WellFormed → t.alter_column cid cc = .ok t' → t'.WellFormed)
      ∧ (∀ (t : Table) (cid : ColumnId) (f : Value → Value) (t' : Table),
          t.WellFormed → t.map_column cid f = .ok t' → t'.WellFormed)
      ∧ (∀ (t : Table) (cid : ColumnId) (f : Value → Value)
            (preds : List (ColumnId × (Value → Bool))) (t' : Table),
          t.WellFormed → t.map_column_if cid f preds = .ok t' → t'.WellFormed) := by
  obtain c1AddRow : ∀ (t : Table) (row : List Value) (t' : Table),
      t.WellFormed → t.add_row row = .ok t' → t'.WellFormed := by
    intro t row t' hwf h
    simp only [Table.add_row] at h
    split at h
    · exact absurd h (by simp)
    · rename_i hlen
      cases hp : pushRow t.columns row with
      | none => rw [hp] at h; exact absurd h (by simp)
      | some cols =>
        rw [hp] at h
        injection h with h
        subst h
        push_neg at hlen
        refine ⟨?_, hwf.2.1, ?_⟩
        · rw [pushRow_length _ _ _ hp]; exact hwf.1
        · intro c' hc'
          have hrowlen : row.length = t.columns.length := by
            rw [hlen, hwf.2.1, hwf.1]
          obtain ⟨c, hcmem, hclen⟩ := pushRow_mem t.columns row cols hrowlen hp c' hc'
          rw [hclen, hwf.2.2 c hcmem]
  refine ⟨c1AddRow, ?_, ?_, ?_, ?_, ?_⟩
  · intro t cc t' hwf h
    simp only [Table.add_empty_column] at h
    cases ho : t.column_order cc.name with
    | some ordinal => rw [ho] at h; exact absurd h (by simp)
    | none =>
      rw [ho] at h
      injection h with h
      subst h
      refine ⟨?_, ?_, rfl, rfl, ?_⟩
      · simp [hwf.1]
      · simp [hwf.2.1]
      · intro hr0
        refine ⟨by simp [hwf.1], by simp [hwf.2.1], ?_⟩
        intro c hc
        rcases List.mem_append.mp hc with hold | hnew
        · exact hwf.2.2 c hold
        · simp only [List.mem_singleton] at hnew
          subst hnew
          simp [hr0]
  · intro t cid t' hwf h
    simp only [Table.remove_column] at h
    cases hres : t.resolve_column_id cid with
    | error e => simp only [hres] at h; exact absurd h (by simp)
    | ok ordinal =>
      simp only [hres] at h
      split at h
      · split at h
        · rename_i h1 h2
          injection h with h
          subst h
          refine ⟨?_, ?_, ?_⟩
          · rw [List.length_eraseIdx, List.length_eraseIdx, if_pos h2, if_pos h1, hwf.1]
          · rw [List.length_eraseIdx, if_pos h1, hwf.2.1]
          · intro c hc
            exact hwf.2.2 c (List.mem_of_mem_eraseIdx hc)
        · exact absurd h (by simp)
      · exact absurd h (by simp)
  · intro t cid cc t' hwf h
    simp only [Table.alter_column] at h
    cases hres : t.resolve_column_id cid with
    | error e => simp only [hres] at h; exact absurd h (by simp)
    | ok ordinal =>
      simp only [hres] at h
      split at h
      · injection h with h
        subst h
        refine ⟨?_, ?_, fun c hc => hwf.2.2 c hc⟩
        · rw [List.length_set]; exact hwf.1
        · rw [List.length_set]; exact hwf.2.1
      · exact absurd h (by simp)
  · intro t cid f t' hwf h
    simp only [Table.map_column] at h
    cases hres : t.resolve_column_id cid with
    | error e => simp only [hres] at h; exact absurd h (by simp)
    | ok ordinal =>
      simp only [hres] at h
      cases hg : mapColumnGo f ordinal (List.range t.row_length) t.columns with
      | none => rw [hg] at h; exact absurd h (by simp)
      | some cols =>
        rw [hg] at h
        injection h with h
        subst h
        obtain ⟨hlen, hshape⟩ := mapColumnGo_some f ordinal _ _ _ hg
        refine ⟨by rw [hlen]; exact hwf.1, hwf.2.1, ?_⟩
        intro c' hc'
        obtain ⟨i, hi⟩ := List.mem_iff_getElem?.mp hc'
        have := hshape i
        rw [hi] at this
        cases hq : t.columns[i]? with
        | none => rw [hq] at this; exact absurd this (by simp)
        | some c =>
          rw [hq] at this
          simp only [Option.map_some', Option.some.injEq] at this
          rcases List.getElem?_eq_some_iff.mp hq with ⟨hlt, hceq⟩
          rw [this, ← hceq]
          exact hwf.2.2 _ (List.getElem_mem hlt)
  · intro t cid f preds t' hwf h
    simp only [Table.map_column_if] at h
    cases hres : t.resolve_column_id cid with
    | error e => simp only [hres] at h; exact absurd h (by simp)
    | ok ordinal =>
      simp only [hres] at h
      cases hg : mapColumnIfGo t.column_contracts f preds ordinal
          (List.range t.row_length) t.columns with
      | err e => rw [hg] at h; exact absurd h (by simp)
      | crash => rw [hg] at h; exact absurd h (by simp)
      | ok cols =>
        rw [hg] at h
        injection h with h
        subst h
        obtain ⟨hlen, hshape⟩ := mapColumnIfGo_ok t.column_contracts f preds ordinal _ _ _ hg
        refine ⟨by rw [hlen]; exact hwf.1, hwf.2.1, ?_⟩
        intro c' hc'
        obtain ⟨i, hi⟩ := List.mem_iff_getElem?.mp hc'
        have := hshape i
        rw [hi] at this
        cases hq : t.columns[i]? with
        | none => rw [hq] at this; exact absurd this (by simp)
        | some c =>
          rw [hq] at this
          simp only [Option.map_some', Option.some.injEq] at this
          rcases List.getElem?_eq_some_iff.mp hq with ⟨hlt, hceq⟩
          rw [this, ← hceq]
          exact hwf.2.2 _ (List.getElem_mem hlt)

/-- C1, witness for `c1_invariants_amended`: the `add_empty_column`
conjunct applied to the one-row table `tOne`, exhibiting the appended
empty column. -/
theorem c1_invariants_amended_witness :
    tOneB.columns.length = tOneB.column_contracts.length
      ∧ tOneB.columns = tOne.columns ++ [[]]
      ∧ tOneB.row_length = tOne.row_length :=
  have h := c1_invariants_amended.2.1 tOne ccB tOneB
    (by
      refine ⟨rfl, rfl, ?_⟩
      intro c hc
      simp only [tOne, List.mem_singleton] at hc
      subst hc
      rfl)
    rfl
  ⟨h.1, h.2.2.1, h.2.2.2.1⟩

end Datakit

namespace Datakit

/-- C9, amended: an unknown column *name* yields
`ColumnError::Unknown`, but `resolve_column_id` returns any *ordinal*
unchecked, so every column-addressed operation called with
`Ordinal(k)`, `k` past the end, panics on the out-of-bounds index
instead of returning a `TableError` — except `map_column` and
`map_column_if` on a zero-row table, whose row loop never runs, so they
return `Ok` with the table unchanged. -/
theorem c9_out_of_range_ordinals_amended :
    (∀ (t : Table) (n : String),
      t.column_order n = none →
        t.resolve_column_id (.name n)
          = .error (.columnError (.unknown (.name n))))
      ∧ (∀ (t : Table) (k : Nat) (cc : ColumnContract) (f : Value → Value)
            (preds : List (ColumnId × (Value → Bool))),
          t.columns.length ≤ k → t.column_contracts.length ≤ k →
            t.resolve_column_id (.ordinal k) = .ok k
              ∧ t.column (.ordinal k) = .crash
              ∧ t.column_contract (.ordinal k) = .crash
              ∧ t.remove_column (.ordinal k) = .crash
              ∧ t.alter_column (.ordinal k) cc = .crash
              ∧ t.validate_column (.ordinal k) = .crash
              ∧ t.validate_column_against_contract (.ordinal k) cc = .crash
              ∧ (t.row_length = 0 →
                  t.map_column (.ordinal k) f = .ok t
                    ∧ t.map_column_if (.ordinal k) f preds = .ok t)
              ∧ (0 < t.row_length →
                  t.map_column (.ordinal k) f = .crash
                    ∧ t.map_column_if (.ordinal k) f preds = .crash)) := by
  constructor
  · intro t n hnone
    simp only [Table.resolve_column_id, resolve_column_id_core]
    rw [show column_order_core t.column_contracts n = none from hnone]
  · intro t k cc f preds hcols hccs
    have hcnone : t.columns[k]? = none := List.getElem?_eq_none hcols
    have hccnone : t.column_contracts[k]? = none := List.getElem?_eq_none hccs
    have hklt : ¬ k < t.column_contracts.length := not_lt.mpr hccs
    refine ⟨rfl, ?_, ?_, ?_, ?_, ?_, ?_, ?_, ?_⟩
    · simp only [Table.column, Table.resolve_column_id, resolve_column_id_core, hcnone]
    · simp only [Table.column_contract, Table.resolve_column_id,
        resolve_column_id_core, hccnone]
    · simp only [Table.remove_column, Table.resolve_column_id,
        resolve_column_id_core, if_neg hklt]
    · simp only [Table.alter_column, Table.resolve_column_id,
        resolve_column_id_core, if_neg hklt]
    · simp only [Table.validate_column, Table.resolve_column_id,
        resolve_column_id_core, hccnone]
    · simp only [Table.validate_column_against_contract, Table.resolve_column_id,
        resolve_column_id_core, hcnone]
    · intro hr0
      constructor
      · simp only [Table.map_column, Table.resolve_column_id,
          resolve_column_id_core, hr0, List.range_zero, mapColumnGo]
        rw [← hr0]
      · simp only [Table.map_column_if, Table.resolve_column_id,
          resolve_column_id_core, hr0, List.range_zero, mapColumnIfGo]
        rw [← hr0]
    · intro hrpos
      obtain ⟨m, hm⟩ : ∃ m, t.row_length = m + 1 :=
        ⟨t.row_length - 1, by omega⟩
      constructor
      · simp only [Table.map_column, Table.resolve_column_id,
          resolve_column_id_core, hm, List.range_succ_eq_map, mapColumnGo, hcnone]
      · simp only [Table.map_column_if, Table.resolve_column_id,
          resolve_column_id_core, hm, List.range_succ_eq_map, mapColumnIfGo, hcnone]

/-- C9, witness for `c9_out_of_range_ordinals_amended` on the one-column
one-row table at ordinal 1. -/
theorem c9_out_of_range_ordinals_amended_witness :
    tOne.column (.ordinal 1) = .crash
      ∧ tOne.remove_column (.ordinal 1) = .crash
      ∧ tOne.map_column (.ordinal 1) (fun v => v) = .crash :=
  have h := (c9_out_of_range_ordinals_amended.2 tOne 1 ccB (fun v => v) []
    (by show 1 ≤ 1; exact le_refl 1) (by show 1 ≤ 1; exact le_refl 1))
  ⟨h.2.1, h.2.2.2.1, (h.2.2.2.2.2.2.2.2 (by show 0 < 1; exact Nat.one_pos)).1⟩

end Datakit

namespace Datakit

/-- For a non-empty list whose length fits in `usize`, the source's
`len() - 1` is ordinary truncated subtraction. -/
theorem usizeWrapSub_one (L : Nat) (h1 : 0 < L) (h2 : L ≤ 2 ^ 64) :
    usizeWrapSub L 1 = L - 1 := by
  unfold usizeWrapSub
  omega

/-- Helper: `validate_column_against_contract` at an in-bounds ordinal, in closed
form. -/
theorem vcac_ordinal (t : Table) (cc : ColumnContract) (o : Nat)
    (h : o < t.columns.length) :
    t.validate_column_against_contract (.ordinal o) cc
      = (if (collectColumnErrors cc t.columns[o]).length = 0 then .ok ()
         else .err (.columnError
           (.containsInvalidValues cc (collectColumnErrors cc t.columns[o])))) := by
  simp only [Table.validate_column_against_contract, Table.resolve_column_id,
    resolve_column_id_core, List.getElem?_eq_getElem h]

/-- Helper: `vtacStep` at an in-bounds ordinal, in closed form. -/
theorem vtacStep_eq (t : Table) (ccs : List ColumnContract)
    (acc : List (String × List (Nat × ValueValidationError))) (o : Nat)
    (h1 : o < ccs.length) (h2 : o < t.columns.length)
    (h3 : o < t.column_contracts.length) :
    vtacStep t ccs acc o
      = (match collectColumnErrors ccs[o] t.columns[o] with
         | [] => acc
         | errs => hashMapInsert acc (t.column_contracts[o]).name errs) := by
  unfold vtacStep
  simp only [List.getElem?_eq_getElem h1, List.getElem?_eq_getElem h2,
    List.getElem?_eq_getElem h3]

/-- The validation loop over a block of in-range ordinals processes them
one `vtacStep` at a time and then continues with the remaining
ordinals. -/
theorem vtacGo_append_in_range (t : Table) (ccs : List ColumnContract)
    (strict : Bool) (hpos : 0 < ccs.length) (hsmall : ccs.length ≤ 2 ^ 64) :
    ∀ (ords ys : List Nat)
      (acc : List (String × List (Nat × ValueValidationError))),
      (∀ o ∈ ords,
        o < ccs.length ∧ o < t.columns.length ∧ o < t.column_contracts.length) →
      vtacGo t ccs strict (ords ++ ys) acc
        = vtacGo t ccs strict ys (ords.foldl (vtacStep t ccs) acc) := by
  intro ords
  induction ords with
  | nil => intro ys acc _; rfl
  | cons o rest ih =>
    intro ys acc hmem
    obtain ⟨h1, h2, h3⟩ := hmem o (List.mem_cons_self o rest)
    have hgt : ¬ o > usizeWrapSub ccs.length 1 := by
      rw [usizeWrapSub_one ccs.length hpos hsmall]
      omega
    show vtacGo t ccs strict (o :: (rest ++ ys)) acc = _
    simp only [vtacGo]
    rw [if_neg (fun hand => hgt hand.2), if_neg (fun hand => hgt hand.2)]
    simp only [List.getElem?_eq_getElem h1]
    rw [vcac_ordinal t ccs[o] o h2]
    rw [List.foldl_cons, vtacStep_eq t ccs acc o h1 h2 h3]
    cases hcoll : collectColumnErrors ccs[o] t.columns[o] with
    | nil =>
      simp only [hcoll, List.length_nil, if_pos rfl]
      exact ih ys _ (fun o' ho' => hmem o' (List.mem_cons_of_mem o ho'))
    | cons e es =>
      simp only [hcoll, List.length_cons, Nat.succ_ne_zero, if_false]
      simp only [List.getElem?_eq_getElem h3]
      exact ih ys _ (fun o' ho' => hmem o' (List.mem_cons_of_mem o ho'))

end Datakit

namespace Datakit

/-- With an empty contract list and at least one column, the validation
loop panics in either mode: the wrapped `len() - 1` disarms both guards
and the empty contract list is then indexed out of bounds. -/
theorem vtac_empty_crash (t : Table) (strict : Bool)
    (hpos : 0 < t.columns.length) :
    t.validate_table_against_contracts [] strict = .crash := by
  obtain ⟨m, hm⟩ : ∃ m, t.columns.length = m + 1 := ⟨t.columns.length - 1, by omega⟩
  have hw : usizeWrapSub (List.length ([] : List ColumnContract)) 1 = 2 ^ 64 - 1 := by
    unfold usizeWrapSub
    simp
  simp only [Table.validate_table_against_contracts, hm, List.range_succ_eq_map, vtacGo]
  rw [if_neg (fun hand => by rw [hw] at hand; omega), if_neg (fun hand => by rw [hw] at hand; omega)]
  rfl

/-- Strict validation with more columns than contracts: the in-range
columns are walked but the accumulated map is discarded, and the call
returns `Unknown` for the first out-of-range ordinal only. -/
theorem vtac_strict_extra (t : Table) (ccs : List ColumnContract)
    (hpos : 0 < ccs.length) (hsmall : ccs.length ≤ 2 ^ 64)
    (hextra : ccs.length < t.columns.length)
    (hwf : t.columns.length = t.column_contracts.length) :
    t.validate_table_against_contracts ccs true
      = .err (.columnError (.unknown (.ordinal ccs.length))) := by
  obtain ⟨m, hm⟩ : ∃ m, t.columns.length - ccs.length = m + 1 :=
    ⟨t.columns.length - ccs.length - 1, by omega⟩
  have hsplit : List.range t.columns.length
      = List.range ccs.length
          ++ List.map (fun x => ccs.length + x) (List.range (t.columns.length - ccs.length)) := by
    rw [← List.range_add]
    congr 1
    omega
  simp only [Table.validate_table_against_contracts, hsplit]
  rw [vtacGo_append_in_range t ccs true hpos hsmall _ _ []
    (fun o ho => by
      have hoL := List.mem_range.mp ho
      exact ⟨hoL, lt_trans hoL hextra, by rw [← hwf]; exact lt_trans hoL hextra⟩)]
  rw [hm, List.range_succ_eq_map]
  simp only [List.map_cons]
  simp only [vtacGo]
  rw [if_neg (fun hand => by simp at hand), if_pos ⟨by trivial, by
    rw [usizeWrapSub_one ccs.length hpos hsmall]
    omega⟩]
  simp

/-- Lenient validation: the loop stops at the shorter of the column list
and the contract list and returns the accumulated name-keyed map (`Ok`
when it is empty). -/
theorem vtac_lenient (t : Table) (ccs : List ColumnContract)
    (hpos : 0 < ccs.length) (hsmall : ccs.length ≤ 2 ^ 64)
    (hwf : t.columns.length = t.column_contracts.length) :
    t.validate_table_against_contracts ccs false
      = (if (lenientErrorMap t ccs).isEmpty then .ok ()
         else .err (.invalidData (lenientErrorMap t ccs))) := by
  by_cases hcase : t.columns.length ≤ ccs.length
  · have hmin : min t.columns.length ccs.length = t.columns.length :=
      Nat.min_eq_left hcase
    have happ := vtacGo_append_in_range t ccs false hpos hsmall
      (List.range t.columns.length) [] []
      (fun o ho => by
        have hoC := List.mem_range.mp ho
        exact ⟨lt_of_lt_of_le hoC hcase, hoC, by rw [← hwf]; exact hoC⟩)
    rw [List.append_nil] at happ
    simp only [Table.validate_table_against_contracts, happ, vtacGo,
      lenientErrorMap, hmin]
  · push_neg at hcase
    have hmin : min t.columns.length ccs.length = ccs.length :=
      Nat.min_eq_right (le_of_lt hcase)
    obtain ⟨m, hm⟩ : ∃ m, t.columns.length - ccs.length = m + 1 :=
      ⟨t.columns.length - ccs.length - 1, by omega⟩
    have hsplit : List.range t.columns.length
        = List.range ccs.length
            ++ List.map (fun x => ccs.length + x)
                (List.range (t.columns.length - ccs.length)) := by
      rw [← List.range_add]
      congr 1
      omega
    simp only [Table.validate_table_against_contracts, hsplit]
    rw [vtacGo_append_in_range t ccs false hpos hsmall _ _ []
      (fun o ho => by
        have hoL := List.mem_range.mp ho
        exact ⟨hoL, lt_trans hoL hcase, by rw [← hwf]; exact lt_trans hoL hcase⟩)]
    rw [hm, List.range_succ_eq_map]
    simp only [List.map_cons]
    simp only [vtacGo]
    rw [if_pos ⟨by simp, by
      rw [usizeWrapSub_one ccs.length hpos hsmall]
      omega⟩]
    simp only [lenientErrorMap, hmin]

/-- C4, amended: with a non-empty external contract list, strict mode
walks the in-range columns, discards whatever map it accumulated, and
returns `ColumnError::Unknown` for the first ordinal past the contract
list; lenient mode stops at the shorter of the two lists and returns the
accumulated name-keyed error map (`Ok` when empty); with a zero-length
contract list and at least one column, both modes panic on the
underflowing `len() - 1` / out-of-bounds index. -/
theorem c4_validate_against_contracts_amended :
    (∀ (t : Table) (strict : Bool),
      0 < t.columns.length →
        t.validate_table_against_contracts [] strict = .crash)
      ∧ (∀ (t : Table) (ccs : List ColumnContract),
          0 < ccs.length → ccs.length ≤ 2 ^ 64 →
          ccs.length < t.columns.length →
          t.columns.length = t.column_contracts.length →
            t.validate_table_against_contracts ccs true
              = .err (.columnError (.unknown (.ordinal ccs.length))))
      ∧ (∀ (t : Table) (ccs : List ColumnContract),
          0 < ccs.length → ccs.length ≤ 2 ^ 64 →
          t.columns.length = t.column_contracts.length →
            t.validate_table_against_contracts ccs false
              = (if (lenientErrorMap t ccs).isEmpty then .ok ()
                 else .err (.invalidData (lenientErrorMap t ccs)))) :=
  ⟨vtac_empty_crash,
   fun t ccs h1 h2 h3 h4 => vtac_strict_extra t ccs h1 h2 h3 h4,
   fun t ccs h1 h2 h3 => vtac_lenient t ccs h1 h2 h3⟩

/-- C4, witness for `c4_validate_against_contracts_amended`: the
empty-contract crash on a one-column table, the strict `Unknown(1)` on a
two-column table checked against one contract, and the lenient `Ok` on
the same table. -/
theorem c4_validate_against_contracts_amended_witness :
    tOne.validate_table_against_contracts [] false = .crash
      ∧ tTwo.validate_table_against_contracts [ccA] true
          = .err (.columnError (.unknown (.ordinal 1)))
      ∧ tTwo.validate_table_against_contracts [ccA] false = .ok () := by
  refine ⟨?_, ?_, ?_⟩
  · exact c4_validate_against_contracts_amended.1 tOne false (by norm_num [tOne])
  · have h := c4_validate_against_contracts_amended.2.1 tTwo [ccA]
      (by norm_num) (by norm_num) (by norm_num [tTwo]) rfl
    simpa using h
  · have h := c4_validate_against_contracts_amended.2.2 tTwo [ccA]
      (by norm_num) (by norm_num) rfl
    rw [h]
    rfl

end Datakit
